import Mathlib

/-!
Shallow embedding of the numeric core of the torchsynth repository
(`src/ddspdrum/module.py`, `src/ddspdrum/parameter.py`,
`torchsynth/module.py`).

Numbers are modelled as exact rationals.  Transcendental collaborators
(`cos`, `sin`, `tan`, the power map `x ↦ x ** alpha`, the
`2 ** (log2 u / scale)` warp of `Parameter.set_value_0to1`, and the
band-limited `scipy.signal.resample` routine, which the specification
itself treats as an external contract) are passed as explicit function
parameters, so every definition stays executable and the structural
content of each source routine is preserved exactly.
-/

/-- `np.clip(x, lo, hi)`, which numpy evaluates as `min(max(x, lo), hi)`. -/
def clipQ (x lo hi : ℚ) : ℚ := min (max x lo) hi

/-- Python's builtin `round` as well as `np.round` and `torch.round`:
round half to even (banker's rounding). -/
def roundHalfEven (x : ℚ) : ℤ :=
  if x - (⌊x⌋ : ℚ) < 1 / 2 then ⌊x⌋
  else if 1 / 2 < x - (⌊x⌋ : ℚ) then ⌊x⌋ + 1
  else if 2 ∣ ⌊x⌋ then ⌊x⌋ else ⌊x⌋ + 1

/-- `int(round(dur * rate))`: the sample count used by `ADSR._ramp`
(`src/ddspdrum/module.py`, with the control rate), by
`TorchSynthModule.seconds_to_samples` (`torchsynth/module.py`, with the
sample rate), and by `ADSR.sustain`. -/
def numSamples (rate dur : ℚ) : ℕ := (roundHalfEven (dur * rate)).toNat

/-- `SynthModule.fix_length` (`src/ddspdrum/module.py` lines 57-67):
zero-pad on the right when too short, truncate when too long. -/
def fix_length (signal : List ℚ) (len : ℕ) : List ℚ :=
  if signal.length < len then signal ++ List.replicate (len - signal.length) 0
  else if len < signal.length then signal.take len
  else signal

/-- `SynthModule.control_to_sample_rate` (`src/ddspdrum/module.py` lines
26-45).  `resampleF l n` stands for `scipy.signal.resample(l, n)`, the
external rate-conversion collaborator of the specification. -/
def control_to_sample_rate (resampleF : List ℚ → ℕ → List ℚ)
    (controlRate sampleRate : ℚ) (control : List ℚ) : List ℚ :=
  if controlRate = sampleRate then control
  else resampleF control
    (roundHalfEven ((control.length : ℚ) * sampleRate / controlRate)).toNat

/-- Helper for `np.cumsum`: running sums with an explicit accumulator. -/
def cumsumFrom (acc : ℚ) : List ℚ → List ℚ
  | [] => []
  | x :: xs => (acc + x) :: cumsumFrom (acc + x) xs

/-- `np.cumsum` / `torch.cumsum`: the list of partial sums. -/
def np_cumsum (l : List ℚ) : List ℚ := cumsumFrom 0 l

/-- The `Parameter` record of `src/ddspdrum/parameter.py`. -/
structure Param where
  name : String
  value : ℚ
  minimum : ℚ
  maximum : ℚ
  scale : ℚ
deriving DecidableEq

/-- `Parameter.__init__` (`src/ddspdrum/parameter.py` lines 28-40):
the initial value is clipped into `[minimum, maximum]`. -/
def param_mk (name : String) (value minimum maximum scale : ℚ) : Param :=
  ⟨name, clipQ value minimum maximum, minimum, maximum, scale⟩

/-- `Parameter.set_value` (lines 48-56): clip to `[minimum, maximum]`. -/
def set_value (p : Param) (v : ℚ) : Param :=
  { p with value := clipQ v p.minimum p.maximum }

/-- `Parameter.set_value_0to1` (lines 58-71).  `warp` stands for the
float computation `u ↦ np.exp2(np.log2(u) / scale)`, i.e. `u ^ (1/scale)`,
which is applied only when `u ≠ 0` and `scale ≠ 1`. -/
def set_value_0to1 (warp : ℚ → ℚ) (p : Param) (u : ℚ) : Param :=
  let u1 := clipQ u 0 1
  let u2 := if u1 ≠ 0 ∧ p.scale ≠ 1 then warp u1 else u1
  { p with value := p.minimum + (p.maximum - p.minimum) * u2 }

/-- `Parameter.get_value_0to1` (lines 73-81).  `pw` stands for the float
computation `v ↦ np.power(v, scale)`, applied only when `scale ≠ 1`. -/
def get_value_0to1 (pw : ℚ → ℚ) (p : Param) : ℚ :=
  let v := (p.value - p.minimum) / (p.maximum - p.minimum)
  if p.scale ≠ 1 then pw v else v

/-- The range invariant of `Parameter` stated in the specification. -/
def param_inv (p : Param) : Prop := p.minimum ≤ p.value ∧ p.value ≤ p.maximum

/-- `TorchADSR._ramp` (`torchsynth/module.py` lines 209-239):
`t = arange(round(dur * SR))`, `ramp = t * (1 / dur) / SR`, optionally
`1 - ramp`, then `pow(ramp, alpha)`.  `powa` stands for the fixed float
map `x ↦ x ** alpha`. -/
def torch_ramp (powa : ℚ → ℚ) (SR dur : ℚ) (inv : Bool) : List ℚ :=
  (List.range (numSamples SR dur)).map (fun (i : ℕ) =>
    let r := (i : ℚ) * (1 / dur) / SR
    powa (if inv then 1 - r else r))

/-- `ADSR._ramp` (`src/ddspdrum/module.py` lines 129-151):
`t = np.linspace(0, dur, round(dur * CR), endpoint=False)` (so
`t[i] = i * (dur / n)`), then `(t / dur) ** alpha`. -/
def ddsp_ramp (powa : ℚ → ℚ) (CR dur : ℚ) : List ℚ :=
  let n := numSamples CR dur
  (List.range n).map (fun (i : ℕ) => powa ((i : ℚ) * (dur / (n : ℚ)) / dur))

/-- `TorchADSR.attack`: the plain `a`-length ramp. -/
def tadsr_attack (powa : ℚ → ℚ) (SR a : ℚ) : List ℚ :=
  torch_ramp powa SR a false

/-- `TorchADSR.decay`: the value-inverted `d`-length ramp, scaled and
shifted to descend from 1 to the sustain level `s`. -/
def tadsr_decay (powa : ℚ → ℚ) (SR d s : ℚ) : List ℚ :=
  (torch_ramp powa SR d true).map (fun x => x * (1 - s) + s)

/-- `TorchADSR.release`: the value-inverted `r`-length ramp. -/
def tadsr_release (powa : ℚ → ℚ) (SR r : ℚ) : List ℚ :=
  torch_ramp powa SR r true

/-- `TorchADSR.note_on` (`torchsynth/module.py` lines 256-270):
`attack ++ decay`, truncated to `num` samples or padded with the
constant sustain level `s`. -/
def tadsr_note_on (powa : ℚ → ℚ) (SR a d s : ℚ) (num : ℕ) : List ℚ :=
  let out := tadsr_attack powa SR a ++ tadsr_decay powa SR d s
  if num ≤ out.length then out.take num
  else out ++ List.replicate (num - out.length) s

/-- `TorchADSR._forward` (`torchsynth/module.py` lines 179-207):
`ADS = note_on(round(dur * SR))`, `R = release * ADS[-1]`,
result `cat(ADS, R)`.  (`ADS[-1]` is modelled by `getLastD`; the code
requires a nonempty `ADS`.) -/
def tadsr_forward (powa : ℚ → ℚ) (SR a d s r dur : ℚ) : List ℚ :=
  let num := numSamples SR dur
  let ADS := tadsr_note_on powa SR a d s num
  ADS ++ (tadsr_release powa SR r).map (fun x => x * ADS.getLastD 0)

/-- Modelled from the spec's words, for comparison with `tadsr_forward`
(claim C2): the release is the sample-order reversal of the plain ramp,
`reverse(ramp(r))`, scaled by the last value of `ADS`. -/
def tadsr_claim_forward (powa : ℚ → ℚ) (SR a d s r dur : ℚ) : List ℚ :=
  let num := numSamples SR dur
  let ADS := tadsr_note_on powa SR a d s num
  ADS ++ (torch_ramp powa SR r false).reverse.map (fun x => x * ADS.getLastD 0)

/-- The mutable state of `VCO` (`src/ddspdrum/module.py` lines 208-219):
configuration `midi_f0`, `mod_depth`, and the running `phase` field. -/
structure VCOState where
  midi_f0 : ℚ
  mod_depth : ℚ
  phase : ℚ
deriving DecidableEq

/-- `VCO.make_argument` (`src/ddspdrum/module.py` lines 249-254):
upsample the frequency curve to the sample rate, then
`np.cumsum(2 * np.pi * up / SAMPLE_RATE)`.  `piQ` stands for `np.pi`. -/
def make_argument (resampleF : List ℚ → ℕ → List ℚ) (piQ CR SR : ℚ)
    (caf : List ℚ) : List ℚ :=
  np_cumsum ((control_to_sample_rate resampleF CR SR caf).map
    (fun f => 2 * piQ * f / SR))

/-- The upsampled instantaneous-frequency curve of `VCO.__call__`:
`control_to_sample_rate(midi_to_hz(mod_depth * mod + midi_f0))`.
`mhz` stands for the float map `midi_to_hz`. -/
def vco_freq (mhz : ℚ → ℚ) (resampleF : List ℚ → ℕ → List ℚ) (CR SR : ℚ)
    (st : VCOState) (modSig : List ℚ) : List ℚ :=
  control_to_sample_rate resampleF CR SR
    ((modSig.map (fun m => st.mod_depth * m + st.midi_f0)).map mhz)

/-- The full cosine argument of `VCO.__call__`:
`make_argument(control_as_frequency) + phase`, where `phase` is the
externally supplied offset argument of the call. -/
def vco_arg (mhz : ℚ → ℚ) (resampleF : List ℚ → ℕ → List ℚ) (piQ CR SR : ℚ)
    (st : VCOState) (modSig : List ℚ) (phase : ℚ) : List ℚ :=
  (make_argument resampleF piQ CR SR
    ((modSig.map (fun m => st.mod_depth * m + st.midi_f0)).map mhz)).map
    (· + phase)

/-- `VCO.__call__` (`src/ddspdrum/module.py` lines 221-254): checks the
modulation range, builds the cosine argument, stores its final value
into the `phase` field and returns `np.cos` of it.  A failed range
assertion, or the crash of `cosine_argument[-1]` on an empty buffer,
is modelled by `none`. -/
def vco_call (mhz : ℚ → ℚ) (resampleF : List ℚ → ℕ → List ℚ) (piQ CR SR : ℚ)
    (cosf : ℚ → ℚ) (st : VCOState) (modSig : List ℚ) (phase : ℚ) :
    Option (VCOState × List ℚ) :=
  if ∀ x ∈ modSig, 0 ≤ x ∧ x ≤ 1 then
    match (vco_arg mhz resampleF piQ CR SR st modSig phase).getLast? with
    | some last => some ({ st with phase := last },
        (vco_arg mhz resampleF piQ CR SR st modSig phase).map cosf)
    | none => none
  else none

/-- Modelled from the spec's words, for comparison with `vco_call`
(claim C1): the cumulative phase argument is seeded with the stored
running `phase` state plus the supplied `phase` offset. -/
def vco_claim_call (mhz : ℚ → ℚ) (resampleF : List ℚ → ℕ → List ℚ)
    (piQ CR SR : ℚ) (cosf : ℚ → ℚ) (st : VCOState) (modSig : List ℚ)
    (phase : ℚ) : Option (VCOState × List ℚ) :=
  if ∀ x ∈ modSig, 0 ≤ x ∧ x ≤ 1 then
    match ((make_argument resampleF piQ CR SR
        ((modSig.map (fun m => st.mod_depth * m + st.midi_f0)).map mhz)).map
        (· + (st.phase + phase))).getLast? with
    | some last => some ({ st with phase := last },
        ((make_argument resampleF piQ CR SR
          ((modSig.map (fun m => st.mod_depth * m + st.midi_f0)).map mhz)).map
          (· + (st.phase + phase))).map cosf)
    | none => none
  else none

/-- `VCA.__call__` (`src/ddspdrum/module.py` lines 267-272): clip the
envelope to `[0, 1]` and the audio to `[-1, 1]`, upsample the envelope,
force the audio to the upsampled length, return the elementwise
product. -/
def vca_call (resampleF : List ℚ → ℕ → List ℚ) (CR SR : ℚ)
    (envelope audioIn : List ℚ) : List ℚ :=
  let e := envelope.map (fun x => clipQ x 0 1)
  let a := audioIn.map (fun x => clipQ x (-1) 1)
  let amp := control_to_sample_rate resampleF CR SR e
  let signal := fix_length a amp.length
  List.zipWith (· * ·) amp signal

/-- `SVF.calculate_coefficients` (`src/ddspdrum/module.py` lines
350-361).  `tanf` stands for `np.tan`. -/
def calculate_coefficients (tanf : ℚ → ℚ) (piQ SR res : ℚ) (so : Bool)
    (cutoff : ℚ) : ℚ × ℚ × ℚ :=
  let g := tanf (piQ * cutoff / SR)
  let R := if so then 0 else 1 / (2 * res)
  (1 / (1 + 2 * R * g + g * g), g, 2 * R + g)

/-- One iteration of the `SVF.__call__` processing loop (lines 321-346):
given coefficients `(coeff0, coeff1, rho)` and feedback state
`(h0, h1)`, produce the next state and the output sample. -/
def svf_step (mode : String) (c : ℚ × ℚ × ℚ) (h : ℚ × ℚ) (x : ℚ) :
    (ℚ × ℚ) × ℚ :=
  let hpf := c.1 * (x - c.2.2 * h.1 - h.2)
  let bpf := c.2.1 * hpf + h.1
  let lpf := c.2.1 * bpf + h.2
  let y := if mode = "LPF" then lpf
    else if mode = "BPF" then bpf
    else if mode = "BSF" then hpf + lpf
    else hpf
  ((c.2.1 * hpf + bpf, c.2.1 * bpf + lpf), y)

/-- The `SVF.__call__` processing loop.  Each element carries the audio
sample and, when cutoff modulation applies, the modulation value used to
recompute the coefficients for that sample. -/
def svf_loop (mode : String) (coefFn : ℚ → ℚ × ℚ × ℚ) (cutoff amount : ℚ) :
    (ℚ × ℚ × ℚ) → (ℚ × ℚ) → List (ℚ × Option ℚ) → List ℚ
  | _, _, [] => []
  | c, h, (x, mo) :: rest =>
    let c' := match mo with
      | some mv => coefFn (cutoff + mv * amount)
      | none => c
    let p := svf_step mode c' h x
    p.2 :: svf_loop mode coefFn cutoff amount c' p.1 rest

/-- `SVF.__call__` (`src/ddspdrum/module.py` lines 297-348): feedback
state starts at `(0, 0)` each call, coefficients are computed once from
the configured cutoff and recomputed per sample only when a modulation
buffer is supplied together with a nonzero modulation amount; in that
case the failing length assertion is modelled by `none`. -/
def svf_call (tanf : ℚ → ℚ) (piQ SR res : ℚ) (so : Bool) (mode : String)
    (cutoff : ℚ) (audioIn : List ℚ) (cutoffMod : Option (List ℚ))
    (amount : ℚ) : Option (List ℚ) :=
  let coefFn := fun c => calculate_coefficients tanf piQ SR res so c
  let c0 := coefFn cutoff
  match cutoffMod with
  | none =>
    some (svf_loop mode coefFn cutoff amount c0 (0, 0)
      (audioIn.map (fun x => (x, none))))
  | some m =>
    if amount = 0 then
      some (svf_loop mode coefFn cutoff amount c0 (0, 0)
        (audioIn.map (fun x => (x, none))))
    else if m.length = audioIn.length then
      some (svf_loop mode coefFn cutoff amount c0 (0, 0)
        (audioIn.zip (m.map some)))
    else none

/-- The per-sample state-variable recursion exactly as the specification
words it (claim C4), with explicit coefficients and state `(h0, h1)`. -/
def svf_spec (coeff0 coeff1 rho : ℚ) (mode : String) :
    List ℚ → ℚ → ℚ → List ℚ
  | [], _, _ => []
  | x :: xs, h0, h1 =>
    let hpf := coeff0 * (x - rho * h0 - h1)
    let bpf := coeff1 * hpf + h0
    let lpf := coeff1 * bpf + h1
    (if mode = "LPF" then lpf
     else if mode = "BPF" then bpf
     else if mode = "BSF" then hpf + lpf
     else hpf)
      :: svf_spec coeff0 coeff1 rho mode xs (coeff1 * hpf + bpf)
          (coeff1 * bpf + lpf)

/-- `FIR.windowed_sinc` (`src/ddspdrum/module.py` lines 390-415): taps
`i = 0 .. L`, `n = i - L/2`, raw tap `sin(n * omega) / n` (or `omega` at
`n = 0`), times the window
`0.42 - 0.5 * cos(2 pi i / L) + 0.08 * cos(2 pi i / L)`, and the whole
response finally divided by `omega`. -/
def windowed_sinc (sinf cosf : ℚ → ℚ) (piQ SR cutoff : ℚ) (L : ℕ) :
    List ℚ :=
  let omega := 2 * piQ * cutoff / SR
  ((List.range (L + 1)).map (fun (i : ℕ) =>
    let n : ℚ := (i : ℚ) - (L : ℚ) / 2
    let raw := if n ≠ 0 then sinf (n * omega) / n else omega
    let wnd := 42 / 100 - (1 / 2) * cosf (2 * piQ * (i : ℚ) / (L : ℚ))
      + (8 / 100) * cosf (2 * piQ * (i : ℚ) / (L : ℚ))
    raw * wnd)).map (fun x => x / omega)

/-- `np.convolve(a, v)` in full mode: output length
`len(a) + len(v) - 1`, `y[k] = sum_j a[j] * v[k - j]`. -/
def np_convolve (a v : List ℚ) : List ℚ :=
  (List.range (a.length + v.length - 1)).map (fun k =>
    ((List.range (k + 1)).map (fun j => a.getD j 0 * v.getD (k - j) 0)).sum)

/-- `FIR.__call__` (`src/ddspdrum/module.py` lines 380-388): build the
windowed-sinc impulse response and convolve the audio with it. -/
def fir_call (sinf cosf : ℚ → ℚ) (piQ SR cutoff : ℚ) (L : ℕ)
    (audioIn : List ℚ) : List ℚ :=
  np_convolve audioIn (windowed_sinc sinf cosf piQ SR cutoff L)

/-! ## Helper lemmas about list indexing and the embedded primitives -/

lemma getD_map (f : ℚ → ℚ) : ∀ (l : List ℚ) (i : ℕ), i < l.length →
    (l.map f).getD i 0 = f (l.getD i 0)
  | [], i, h => absurd h (by simp)
  | a :: l, 0, _ => rfl
  | a :: l, i + 1, h => getD_map f l i (by simpa using h)

lemma getD_append_left : ∀ (l l' : List ℚ) (i : ℕ), i < l.length →
    (l ++ l').getD i 0 = l.getD i 0
  | [], _, i, h => absurd h (by simp)
  | a :: l, l', 0, _ => rfl
  | a :: l, l', i + 1, h => getD_append_left l l' i (by simpa using h)

lemma getD_append_right : ∀ (l l' : List ℚ) (i : ℕ), l.length ≤ i →
    (l ++ l').getD i 0 = l'.getD (i - l.length) 0
  | [], l', i, _ => by simp
  | a :: l, l', 0, h => absurd h (by simp)
  | a :: l, l', i + 1, h => by
      simpa [Nat.succ_sub_succ] using getD_append_right l l' i (by simpa using h)

lemma getD_take : ∀ (l : List ℚ) (n i : ℕ), i < n →
    (l.take n).getD i 0 = l.getD i 0
  | [], n, i, h => by simp
  | a :: l, n + 1, 0, _ => rfl
  | a :: l, n + 1, i + 1, h => getD_take l n i (by omega)
  | a :: l, 0, i, h => absurd h (by omega)

lemma getD_replicate (c : ℚ) : ∀ (n i : ℕ), i < n →
    (List.replicate n c).getD i 0 = c
  | n + 1, 0, _ => rfl
  | n + 1, i + 1, h => getD_replicate c n i (by omega)
  | 0, i, h => absurd h (by omega)

lemma getD_range_map (f : ℕ → ℚ) (n i : ℕ) (h : i < n) :
    ((List.range n).map f).getD i 0 = f i := by
  induction n with
  | zero => omega
  | succ m ih =>
    rcases Nat.lt_or_ge i m with hm | hm
    · rw [List.range_succ, List.map_append, getD_append_left _ _ _ (by simpa using hm)]
      exact ih hm
    · have him : i = m := by omega
      subst him
      rw [List.range_succ, List.map_append,
        getD_append_right _ _ _ (by simp), List.length_map, List.length_range]
      simp

lemma getD_zipWith : ∀ (l l' : List ℚ) (i : ℕ), i < l.length → i < l'.length →
    (List.zipWith (· * ·) l l').getD i 0 = l.getD i 0 * l'.getD i 0
  | [], _, i, h, _ => absurd h (by simp)
  | _ :: _, [], i, _, h => absurd h (by simp)
  | a :: l, b :: l', 0, _, _ => rfl
  | a :: l, b :: l', i + 1, h, h' =>
      getD_zipWith l l' i (by simpa using h) (by simpa using h')

lemma length_cumsumFrom : ∀ (l : List ℚ) (acc : ℚ), (cumsumFrom acc l).length = l.length
  | [], _ => rfl
  | x :: xs, acc => by simp [cumsumFrom, length_cumsumFrom xs]

lemma cumsumFrom_getD : ∀ (l : List ℚ) (acc : ℚ) (i : ℕ), i < l.length →
    (cumsumFrom acc l).getD i 0
      = (if i = 0 then acc else (cumsumFrom acc l).getD (i - 1) 0) + l.getD i 0
  | [], _, i, h => absurd h (by simp)
  | x :: xs, acc, 0, _ => by simp [cumsumFrom]
  | x :: xs, acc, 1, h => by
      have hlt : 0 < xs.length := by simpa using h
      have := cumsumFrom_getD xs (acc + x) 0 hlt
      simpa [cumsumFrom] using this
  | x :: xs, acc, (j + 1) + 1, h => by
      have hlt : j + 1 < xs.length := by simpa using h
      have := cumsumFrom_getD xs (acc + x) (j + 1) hlt
      simpa [cumsumFrom] using this

lemma fix_length_length (l : List ℚ) (n : ℕ) : (fix_length l n).length = n := by
  unfold fix_length
  split
  · simp; omega
  · split
    · simp; omega
    · omega

lemma fix_length_getD (l : List ℚ) (n i : ℕ) (h : i < n) :
    (fix_length l n).getD i 0 = if i < l.length then l.getD i 0 else 0 := by
  unfold fix_length
  split
  · rcases Nat.lt_or_ge i l.length with hi | hi
    · rw [getD_append_left _ _ _ hi, if_pos hi]
    · rw [getD_append_right _ _ _ hi, if_neg (by omega),
        getD_replicate _ _ _ (by omega)]
  · split
    · have hi : i < l.length := by omega
      rw [getD_take _ _ _ h, if_pos hi]
    · have hi : i < l.length := by omega
      rw [if_pos hi]

lemma le_clipQ {lo hi : ℚ} (x : ℚ) (h : lo ≤ hi) : lo ≤ clipQ x lo hi :=
  le_min (le_max_right x lo) h

lemma clipQ_le (x lo hi : ℚ) : clipQ x lo hi ≤ hi := min_le_right _ _

lemma roundHalfEven_zero : roundHalfEven 0 = 0 := by norm_num [roundHalfEven]

lemma numSamples_zero (rate : ℚ) : numSamples rate 0 = 0 := by
  simp [numSamples, roundHalfEven_zero]

lemma numSamples_eq_of_round (rate dur : ℚ) (n : ℕ)
    (h : roundHalfEven (dur * rate) = (n : ℤ)) : numSamples rate dur = n := by
  rw [numSamples, h, Int.toNat_natCast]

lemma roundHalfEven_pos {x : ℚ} (h : 1 ≤ roundHalfEven x) : 0 < x := by
  have hfl : (⌊x⌋ : ℚ) ≤ x := Int.floor_le x
  unfold roundHalfEven at h
  split_ifs at h with h1 h2 h3
  · have : (1 : ℚ) ≤ (⌊x⌋ : ℚ) := by exact_mod_cast h
    linarith
  · have h0 : (0 : ℤ) ≤ ⌊x⌋ := by omega
    have : (0 : ℚ) ≤ (⌊x⌋ : ℚ) := by exact_mod_cast h0
    linarith
  · have : (1 : ℚ) ≤ (⌊x⌋ : ℚ) := by exact_mod_cast h
    linarith
  · have h0 : (0 : ℤ) ≤ ⌊x⌋ := by omega
    have : (0 : ℚ) ≤ (⌊x⌋ : ℚ) := by exact_mod_cast h0
    have hr : ¬(x - (⌊x⌋ : ℚ) < 1 / 2) := h1
    push_neg at hr
    linarith

lemma numSamples_pos_dur {rate dur : ℚ} {i : ℕ} (hi : i < numSamples rate dur) :
    dur ≠ 0 := by
  intro h0
  subst h0
  rw [numSamples_zero] at hi
  omega

lemma tadsr_note_on_length (powa : ℚ → ℚ) (SR a d s : ℚ) (num : ℕ) :
    (tadsr_note_on powa SR a d s num).length = num := by
  rw [tadsr_note_on]
  split
  · rw [List.length_take]
    omega
  · rw [List.length_append, List.length_replicate]
    omega

/-- Claim C2, counterexample: with `alpha = 1` (the power map is the
identity), sample rate 1, attack 1, decay 0, sustain 1, release 1 and
note-on duration 2, the release segment computed by `TorchADSR._forward`
is the value-inverted ramp `[1]`, not the sample-order reversal
`reverse(ramp(r)) = [0]` that the claim describes. -/
theorem adsr_release_reverse_cx :
    tadsr_forward id 1 1 0 1 1 2 ≠ tadsr_claim_forward id 1 1 0 1 1 2 := by
  have h2 : numSamples 1 2 = 2 := numSamples_eq_of_round 1 2 2 (by norm_num [roundHalfEven])
  have h1 : numSamples 1 1 = 1 := numSamples_eq_of_round 1 1 1 (by norm_num [roundHalfEven])
  have h0 : numSamples 1 0 = 0 := numSamples_zero 1
  simp only [tadsr_forward, tadsr_claim_forward, tadsr_note_on, tadsr_attack,
    tadsr_decay, tadsr_release, torch_ramp, h2, h1, h0]
  norm_num [List.range_succ]

/-- Claim C2, amended: for every ADSR configuration and note-on duration
with at least one sample, `TorchADSR._forward` produces
`ADS = concat(attack, decay)` truncated, or padded with the constant
sustain level `s`, to exactly `round(noteOnDuration * SR)` samples,
followed by a release equal to the value-inverted ramp
`(1 - i/(r*SR))^alpha` (not the sample-order reversal of the plain ramp)
scaled by the last value of `ADS`. -/
theorem adsr_note_duration_amended (powa : ℚ → ℚ) (SR a d s r dur : ℚ)
    (h : 1 ≤ numSamples SR dur) :
    tadsr_forward powa SR a d s r dur
      = tadsr_note_on powa SR a d s (numSamples SR dur)
        ++ (torch_ramp powa SR r true).map
          (fun x => x * (tadsr_note_on powa SR a d s (numSamples SR dur)).getLastD 0)
    ∧ (tadsr_note_on powa SR a d s (numSamples SR dur)).length = numSamples SR dur
    ∧ ∀ i, i < numSamples SR dur →
        (tadsr_note_on powa SR a d s (numSamples SR dur)).getD i 0
          = if i < (tadsr_attack powa SR a ++ tadsr_decay powa SR d s).length
            then (tadsr_attack powa SR a ++ tadsr_decay powa SR d s).getD i 0
            else s := by
  refine ⟨rfl, tadsr_note_on_length powa SR a d s _, fun i hi => ?_⟩
  rw [tadsr_note_on]
  split
  · rename_i hc
    rw [getD_take _ _ _ hi, if_pos (by omega)]
  · rename_i hc
    by_cases hil : i < (tadsr_attack powa SR a ++ tadsr_decay powa SR d s).length
    · rw [getD_append_left _ _ _ hil, if_pos hil]
    · rw [getD_append_right _ _ _ (by omega),
        getD_replicate _ _ _ (by omega), if_neg hil]

/-- Witness for the amended claim C2 at a concrete configuration. -/
theorem adsr_note_duration_amended_wit :
    (tadsr_note_on id 1 1 0 1 (numSamples 1 2)).length = numSamples 1 2 :=
  (adsr_note_duration_amended id 1 1 0 1 1 2
    (by rw [numSamples_eq_of_round 1 2 2 (by norm_num [roundHalfEven])]; omega)).2.1

/-- Claim C3, counterexample: at duration `7/2` seconds with rate 1
(so `T * Rc = 3.5`), `TorchADSR._ramp` returns
`round(3.5) = 4` samples (banker's rounding), not
`floor(3.5) = 3` samples as the claim states. -/
theorem ramp_floor_cx :
    ¬ ((torch_ramp id 1 (7 / 2) false).length = (⌊(7 / 2 : ℚ) * 1⌋).toNat) := by
  have h : numSamples 1 (7 / 2) = 4 :=
    numSamples_eq_of_round 1 (7 / 2) 4 (by norm_num [roundHalfEven])
  have hl : (torch_ramp id 1 (7 / 2) false).length = 4 := by
    rw [torch_ramp, List.length_map, List.length_range, h]
  have hf : ⌊(7 / 2 : ℚ) * 1⌋ = 3 := by norm_num
  rw [hl, hf]
  decide

/-- Claim C3, amended: for rate `Rc > 0` and duration `T ≥ 0` the ramp
primitives return exactly `round(T * Rc)` samples (round half to even,
not `floor`); the torch ramp value at index `i` is `(i / (T*Rc))^alpha`
as the claim states, while the numpy ramp value is `(i / N)^alpha` where
`N = round(T * Rc)` is the sample count (`np.linspace` divides by the
count, not by `T * Rc`). -/
theorem ramp_count_amended (powa : ℚ → ℚ) (rc dur : ℚ) (hrc : 0 < rc)
    (hdur : 0 ≤ dur) :
    (torch_ramp powa rc dur false).length = numSamples rc dur
    ∧ (∀ i, i < numSamples rc dur →
        (torch_ramp powa rc dur false).getD i 0 = powa ((i : ℚ) / (dur * rc)))
    ∧ (ddsp_ramp powa rc dur).length = numSamples rc dur
    ∧ (∀ i, i < numSamples rc dur →
        (ddsp_ramp powa rc dur).getD i 0
          = powa ((i : ℚ) / (numSamples rc dur : ℚ))) := by
  refine ⟨by rw [torch_ramp, List.length_map, List.length_range],
    fun i hi => ?_,
    by rw [ddsp_ramp, List.length_map, List.length_range],
    fun i hi => ?_⟩
  · rw [torch_ramp, getD_range_map _ _ _ hi]
    simp only [Bool.false_eq_true, if_false]
    rw [mul_one_div, div_div]
  · have hne : dur ≠ 0 := numSamples_pos_dur hi
    rw [ddsp_ramp, getD_range_map _ _ _ hi]
    congr 1
    rw [← mul_div_assoc, div_div, mul_div_mul_right _ _ hne]

/-- Witness for the amended claim C3 at a concrete configuration. -/
theorem ramp_count_amended_wit :
    (torch_ramp id 1 2 false).length = numSamples 1 2 :=
  (ramp_count_amended id 1 2 (by norm_num) (by norm_num)).1

/-- Claim C7: for a linear-scale parameter with a non-degenerate range,
`set_value_0to1(get_value_0to1())` leaves the value unchanged
(the normalized round trip is the identity, exactly over ℚ). -/
theorem param_roundtrip_linear (warp pw : ℚ → ℚ) (p : Param)
    (hs : p.scale = 1) (hlt : p.minimum < p.maximum)
    (h1 : p.minimum ≤ p.value) (h2 : p.value ≤ p.maximum) :
    (set_value_0to1 warp p (get_value_0to1 pw p)).value = p.value := by
  have hpos : 0 < p.maximum - p.minimum := sub_pos.mpr hlt
  have hne : p.maximum - p.minimum ≠ 0 := ne_of_gt hpos
  have hget : get_value_0to1 pw p
      = (p.value - p.minimum) / (p.maximum - p.minimum) := by
    rw [get_value_0to1]
    simp [hs]
  have hu0 : 0 ≤ (p.value - p.minimum) / (p.maximum - p.minimum) :=
    div_nonneg (sub_nonneg.mpr h1) (le_of_lt hpos)
  have hu1 : (p.value - p.minimum) / (p.maximum - p.minimum) ≤ 1 := by
    rw [div_le_one hpos]
    linarith
  rw [set_value_0to1, hget]
  simp only [clipQ, max_eq_left hu0, min_eq_left hu1, hs]
  simp only [ne_eq, not_true_eq_false, and_false, if_false]
  field_simp

/-- Witness for claim C7 at a concrete parameter. -/
theorem param_roundtrip_linear_wit :
    (set_value_0to1 id (param_mk "p" 1 0 2 1)
      (get_value_0to1 id (param_mk "p" 1 0 2 1))).value
      = (param_mk "p" 1 0 2 1).value :=
  param_roundtrip_linear id id (param_mk "p" 1 0 2 1) rfl
    (by norm_num [param_mk]) (le_clipQ 1 (by norm_num [param_mk]))
    (clipQ_le 1 0 2)

/-- Claim C8: for a parameter with ordered bounds and positive scale,
`minimum ≤ value ≤ maximum` holds after construction and is preserved by
every `set_value` call and every `set_value_0to1` call, for any rational
argument.  The hypothesis on `warp` records the mathematical fact
`u ^ (1/scale) ∈ [0, 1]` for `u ∈ (0, 1]` and `scale > 0`, which is the
property of the float computation `exp2(log2(u)/scale)` the code relies
on. -/
theorem param_range_invariant (warp : ℚ → ℚ) (p : Param)
    (hmm : p.minimum ≤ p.maximum) (hsc : 0 < p.scale)
    (hw : ∀ u : ℚ, 0 < u → u ≤ 1 → 0 ≤ warp u ∧ warp u ≤ 1) :
    (∀ nm v0 sc, param_inv (param_mk nm v0 p.minimum p.maximum sc))
    ∧ (∀ v, param_inv (set_value p v))
    ∧ (∀ u, param_inv (set_value_0to1 warp p u)) := by
  refine ⟨fun nm v0 sc => ⟨le_clipQ v0 hmm, clipQ_le v0 _ _⟩,
    fun v => ⟨le_clipQ v hmm, clipQ_le v _ _⟩, fun u => ?_⟩
  have h0 : 0 ≤ clipQ u 0 1 := le_clipQ u zero_le_one
  have h1 : clipQ u 0 1 ≤ 1 := clipQ_le u 0 1
  have hb : 0 ≤ (if clipQ u 0 1 ≠ 0 ∧ p.scale ≠ 1 then warp (clipQ u 0 1)
        else clipQ u 0 1)
      ∧ (if clipQ u 0 1 ≠ 0 ∧ p.scale ≠ 1 then warp (clipQ u 0 1)
        else clipQ u 0 1) ≤ 1 := by
    split_ifs with hc
    · exact hw _ (lt_of_le_of_ne h0 (Ne.symm hc.1)) h1
    · exact ⟨h0, h1⟩
  have hval : (set_value_0to1 warp p u).value
      = p.minimum + (p.maximum - p.minimum)
        * (if clipQ u 0 1 ≠ 0 ∧ p.scale ≠ 1 then warp (clipQ u 0 1)
          else clipQ u 0 1) := rfl
  have hmin : (set_value_0to1 warp p u).minimum = p.minimum := rfl
  have hmax : (set_value_0to1 warp p u).maximum = p.maximum := rfl
  rw [param_inv, hval, hmin, hmax]
  constructor
  · nlinarith [hb.1, hb.2, sub_nonneg.mpr hmm]
  · nlinarith [hb.1, hb.2, sub_nonneg.mpr hmm]

/-- Witness for claim C8 at a concrete parameter and argument. -/
theorem param_range_invariant_wit :
    param_inv (set_value_0to1 id (param_mk "q" 0 0 1 2) (3 / 4)) :=
  (param_range_invariant id (param_mk "q" 0 0 1 2) (by norm_num [param_mk])
    (by norm_num [param_mk]) (fun u hu1 hu2 => ⟨le_of_lt hu1, hu2⟩)).2.2 (3 / 4)

/-- Claim C6: `apply(envelope, audio)` returns a buffer whose length
always equals the length of the rate-converted clamped envelope,
regardless of the audio's original length, and whose `i`-th sample is
the product of the rate-converted envelope sample with the clamped audio
sample (zero where the audio was padded). -/
theorem vca_length_product (resampleF : List ℚ → ℕ → List ℚ) (CR SR : ℚ)
    (envelope audioIn : List ℚ) :
    (vca_call resampleF CR SR envelope audioIn).length
      = (control_to_sample_rate resampleF CR SR
          (envelope.map (fun x => clipQ x 0 1))).length
    ∧ ∀ i, i < (control_to_sample_rate resampleF CR SR
          (envelope.map (fun x => clipQ x 0 1))).length →
        (vca_call resampleF CR SR envelope audioIn).getD i 0
          = (control_to_sample_rate resampleF CR SR
              (envelope.map (fun x => clipQ x 0 1))).getD i 0
            * (if i < audioIn.length then clipQ (audioIn.getD i 0) (-1) 1
              else 0) := by
  constructor
  · rw [vca_call, List.length_zipWith, fix_length_length, Nat.min_self]
  · intro i hi
    rw [vca_call]
    rw [getD_zipWith _ _ _ hi (by rw [fix_length_length]; exact hi)]
    rw [fix_length_getD _ _ _ hi]
    congr 1
    by_cases hia : i < audioIn.length
    · rw [if_pos (by simpa using hia), if_pos hia, getD_map _ _ _ hia]
    · rw [if_neg (by simpa using hia), if_neg hia]

/-- Witness for claim C6 at a concrete envelope and empty audio. -/
theorem vca_length_product_wit :
    (vca_call (fun _ n => List.replicate n 0) 1 1 [2] []).length
      = (control_to_sample_rate (fun _ n => List.replicate n 0) 1 1
          ([2].map (fun x => clipQ x 0 1))).length :=
  (vca_length_product (fun _ n => List.replicate n 0) 1 1 [2] []).1

lemma svf_loop_nomod (mode : String) (coefFn : ℚ → ℚ × ℚ × ℚ)
    (cutoff amount : ℚ) (c0 c1 rh : ℚ) :
    ∀ (xs : List ℚ) (h0 h1 : ℚ),
    svf_loop mode coefFn cutoff amount (c0, c1, rh) (h0, h1)
        (xs.map (fun x => (x, none)))
      = svf_spec c0 c1 rh mode xs h0 h1 := by
  intro xs
  induction xs with
  | nil => intro h0 h1; rfl
  | cons x xs ih =>
    intro h0 h1
    simp only [List.map_cons, svf_loop, svf_step, svf_spec]
    exact congrArg _ (ih _ _)

/-- Claim C4: with no cutoff modulation supplied, `SVF.__call__`
initializes its feedback state to `(0, 0)`, derives the coefficients
once from the configured cutoff exactly as
`g = tan(pi * c / SR)`, `R = 0` if self-oscillating else
`1 / (2 * resonance)`, `coeff0 = 1 / (1 + 2*R*g + g*g)`, `coeff1 = g`,
`rho = 2*R + g`, and runs the per-sample recursion of the specification,
emitting `lpf` in LPF mode, `bpf` in BPF mode, `hpf + lpf` in BSF mode
and `hpf` otherwise.  The filter object carries no feedback state across
calls (`svf_call` is a pure function of its arguments). -/
theorem svf_nomod_spec (tanf : ℚ → ℚ) (piQ SR res : ℚ) (so : Bool)
    (mode : String) (cutoff amount : ℚ) (audioIn : List ℚ) :
    svf_call tanf piQ SR res so mode cutoff audioIn none amount
      = some (svf_spec
          (1 / (1 + 2 * (if so then 0 else 1 / (2 * res))
              * tanf (piQ * cutoff / SR)
            + tanf (piQ * cutoff / SR) * tanf (piQ * cutoff / SR)))
          (tanf (piQ * cutoff / SR))
          (2 * (if so then 0 else 1 / (2 * res)) + tanf (piQ * cutoff / SR))
          mode audioIn 0 0) := by
  simp only [svf_call, calculate_coefficients]
  rw [svf_loop_nomod]

/-- Claim C5, counterexample: supplying a cutoff-modulation buffer of
length 2 with an audio buffer of length 1 and the default modulation
amount 0 does not fail: the call returns an output buffer.  The length
check in `SVF.__call__` only runs when the modulation amount is
nonzero. -/
theorem svf_mismatch_cx :
    svf_call id 0 1 1 false "LPF" 1 [0] (some [0, 0]) 0 = some [0] := by
  have hc : calculate_coefficients id 0 1 1 false 1 = (1, 0, 1) := by
    norm_num [calculate_coefficients]
  simp only [svf_call, if_pos rfl, hc]
  norm_num [svf_loop, svf_step]

/-- Claim C5, amended: when a cutoff-modulation sequence is supplied
together with a nonzero modulation amount and its length differs from
the audio length, `SVF.__call__` fails (the length assertion) and
produces no output; with a zero amount the modulation buffer is ignored
and no length check happens. -/
theorem svf_mismatch_amended (tanf : ℚ → ℚ) (piQ SR res : ℚ) (so : Bool)
    (mode : String) (cutoff : ℚ) (audioIn m : List ℚ) (amount : ℚ)
    (hamt : amount ≠ 0) (hlen : m.length ≠ audioIn.length) :
    svf_call tanf piQ SR res so mode cutoff audioIn (some m) amount = none := by
  simp only [svf_call]
  rw [if_neg hamt, if_neg hlen]

/-- Witness for the amended claim C5 at a concrete mismatched call. -/
theorem svf_mismatch_amended_wit :
    svf_call id 0 1 1 false "LPF" 1 [0] (some [0, 0]) 1 = none :=
  svf_mismatch_amended id 0 1 1 false "LPF" 1 [0] [0, 0] 1 (by norm_num)
    (by decide)

/-- Claim C9: the windowed-sinc FIR builds an impulse response of length
`L + 1` whose tap `i` is `(n = i - L/2; n == 0 ? omega : sin(n*omega)/n)`
multiplied by the window
`0.42 - 0.5*cos(2 pi i / L) + 0.08*cos(2 pi i / L)` and divided by
`omega = 2 pi cutoff / SR`, and full linear convolution of the audio
with this impulse yields an output of length `len(audio) + L`. -/
theorem fir_response (sinf cosf : ℚ → ℚ) (piQ SR cutoff : ℚ) (L : ℕ)
    (audioIn : List ℚ) (hL : 1 ≤ L) (ha : audioIn ≠ []) :
    (windowed_sinc sinf cosf piQ SR cutoff L).length = L + 1
    ∧ (∀ i, i < L + 1 →
        (windowed_sinc sinf cosf piQ SR cutoff L).getD i 0
          = (if ((i : ℚ) - (L : ℚ) / 2) = 0 then 2 * piQ * cutoff / SR
             else sinf (((i : ℚ) - (L : ℚ) / 2) * (2 * piQ * cutoff / SR))
               / ((i : ℚ) - (L : ℚ) / 2))
            * (42 / 100 - (1 / 2) * cosf (2 * piQ * (i : ℚ) / (L : ℚ))
              + (8 / 100) * cosf (2 * piQ * (i : ℚ) / (L : ℚ)))
            / (2 * piQ * cutoff / SR))
    ∧ (fir_call sinf cosf piQ SR cutoff L audioIn).length
        = audioIn.length + L := by
  refine ⟨?_, fun i hi => ?_, ?_⟩
  · rw [windowed_sinc, List.length_map, List.length_map, List.length_range]
  · rw [windowed_sinc, List.map_map, getD_range_map _ _ _ hi]
    dsimp only [Function.comp]
    by_cases hn : ((i : ℚ) - (L : ℚ) / 2) = 0
    · rw [if_neg (not_not_intro hn), if_pos hn]
    · rw [if_pos hn, if_neg hn]
  · rw [fir_call, np_convolve, List.length_map, List.length_range,
      windowed_sinc, List.length_map, List.length_map, List.length_range]
    omega

/-- Witness for claim C9 at a concrete configuration. -/
theorem fir_response_wit :
    (fir_call id id 1 1 1 2 [1]).length = ([(1 : ℚ)]).length + 2 :=
  (fir_response id id 1 1 1 2 [1] (by omega) (by simp)).2.2

lemma vco_arg_length (mhz : ℚ → ℚ) (resampleF : List ℚ → ℕ → List ℚ)
    (piQ CR SR : ℚ) (st : VCOState) (modSig : List ℚ) (phase : ℚ) :
    (vco_arg mhz resampleF piQ CR SR st modSig phase).length
      = (vco_freq mhz resampleF CR SR st modSig).length := by
  rw [vco_arg, make_argument, List.length_map, np_cumsum, length_cumsumFrom,
    List.length_map, vco_freq]

lemma vco_call_eval_one :
    vco_call id (fun l _ => l) 1 2 2 id ⟨1, 0, 5⟩ [0] 0
      = some (⟨1, 0, 1⟩, [1]) := by
  have hcond : ∀ x ∈ ([0] : List ℚ), 0 ≤ x ∧ x ≤ 1 := by norm_num
  have hA : vco_arg id (fun l _ => l) 1 2 2 ⟨1, 0, 5⟩ [0] 0 = [1] := by
    simp [vco_arg, make_argument, control_to_sample_rate, np_cumsum, cumsumFrom]
  rw [vco_call, if_pos hcond, hA]
  simp

/-- Claim C1, counterexample: the claim seeds the running phase sum with
the oscillator's stored `phase` state plus the supplied offset, but
`VCO.__call__` uses only the supplied offset.  With stored phase 5,
offset 0 and a one-sample modulation buffer, the code stores final
phase 1 and returns `cos([1])`, while the claim's seeding would store
final phase 6 and return `cos([6])`. -/
theorem vco_phase_seed_cx :
    vco_call id (fun l _ => l) 1 2 2 id ⟨1, 0, 5⟩ [0] 0
      ≠ vco_claim_call id (fun l _ => l) 1 2 2 id ⟨1, 0, 5⟩ [0] 0 := by
  have hcond : ∀ x ∈ ([0] : List ℚ), 0 ≤ x ∧ x ≤ 1 := by norm_num
  have hB : (make_argument (fun l _ => l) 1 2 2
        ((([0] : List ℚ).map
          (fun m => (⟨1, 0, 5⟩ : VCOState).mod_depth * m
            + (⟨1, 0, 5⟩ : VCOState).midi_f0)).map id)).map
        (· + ((⟨1, 0, 5⟩ : VCOState).phase + 0)) = [6] := by
    simp [make_argument, control_to_sample_rate, np_cumsum, cumsumFrom]
    norm_num
  have h2 : vco_claim_call id (fun l _ => l) 1 2 2 id ⟨1, 0, 5⟩ [0] 0
      = some (⟨1, 0, 6⟩, [6]) := by
    rw [vco_claim_call, if_pos hcond, hB]
    simp
  rw [vco_call_eval_one, h2]
  simp only [ne_eq, Option.some.injEq, Prod.mk.injEq, VCOState.mk.injEq]
  norm_num

/-- Claim C1, amended: for every successful oscillator call, the phase
argument is the running sum
`arg[i] = arg[i-1] + 2 pi freq[i] / SR` seeded from the externally
supplied `phase` offset alone (the oscillator's stored phase state is
not read during the call), the output is the waveshape of that
argument, and after the call the final unwrapped phase value is stored
into the oscillator's `phase` state. -/
theorem vco_phase_argument_amended (mhz : ℚ → ℚ)
    (resampleF : List ℚ → ℕ → List ℚ) (piQ CR SR : ℚ) (cosf : ℚ → ℚ)
    (st : VCOState) (modSig : List ℚ) (phase : ℚ) (st' : VCOState)
    (outp : List ℚ)
    (h : vco_call mhz resampleF piQ CR SR cosf st modSig phase
      = some (st', outp)) :
    st'.phase = (vco_arg mhz resampleF piQ CR SR st modSig phase).getLastD 0
    ∧ outp = (vco_arg mhz resampleF piQ CR SR st modSig phase).map cosf
    ∧ ∀ i, i < (vco_arg mhz resampleF piQ CR SR st modSig phase).length →
        (vco_arg mhz resampleF piQ CR SR st modSig phase).getD i 0
          = (if i = 0 then phase
             else (vco_arg mhz resampleF piQ CR SR st modSig phase).getD
               (i - 1) 0)
            + 2 * piQ * ((vco_freq mhz resampleF CR SR st modSig).getD i 0)
              / SR := by
  have hrec : ∀ i, i < (vco_arg mhz resampleF piQ CR SR st modSig phase).length →
      (vco_arg mhz resampleF piQ CR SR st modSig phase).getD i 0
        = (if i = 0 then phase
           else (vco_arg mhz resampleF piQ CR SR st modSig phase).getD
             (i - 1) 0)
          + 2 * piQ * ((vco_freq mhz resampleF CR SR st modSig).getD i 0)
            / SR := by
    intro i hi
    have harg : vco_arg mhz resampleF piQ CR SR st modSig phase
        = (np_cumsum ((vco_freq mhz resampleF CR SR st modSig).map
            (fun f => 2 * piQ * f / SR))).map (· + phase) := rfl
    have hlenC : (np_cumsum ((vco_freq mhz resampleF CR SR st modSig).map
          (fun f => 2 * piQ * f / SR))).length
        = ((vco_freq mhz resampleF CR SR st modSig).map
            (fun f => 2 * piQ * f / SR)).length := by
      rw [np_cumsum, length_cumsumFrom]
    have hiC : i < (np_cumsum ((vco_freq mhz resampleF CR SR st modSig).map
        (fun f => 2 * piQ * f / SR))).length := by
      rw [hlenC]
      rw [vco_arg_length] at hi
      simpa using hi
    have hiF : i < (vco_freq mhz resampleF CR SR st modSig).length := by
      rw [vco_arg_length] at hi
      exact hi
    have hstep : ((vco_freq mhz resampleF CR SR st modSig).map
          (fun f => 2 * piQ * f / SR)).getD i 0
        = 2 * piQ * ((vco_freq mhz resampleF CR SR st modSig).getD i 0) / SR :=
      getD_map _ _ _ hiF
    have hcum := cumsumFrom_getD
      ((vco_freq mhz resampleF CR SR st modSig).map (fun f => 2 * piQ * f / SR))
      0 i (by simpa using hiF)
    rw [harg, getD_map _ _ _ hiC]
    rcases Nat.eq_zero_or_pos i with hz | hpos
    · subst hz
      rw [if_pos rfl]
      simp only [np_cumsum]
      rw [hcum, hstep, if_pos rfl]
      ring
    · rw [if_neg (by omega)]
      have hiC' : i - 1 < (np_cumsum ((vco_freq mhz resampleF CR SR st modSig).map
          (fun f => 2 * piQ * f / SR))).length := by omega
      rw [getD_map _ _ _ hiC']
      simp only [np_cumsum]
      rw [hcum, hstep, if_neg (by omega)]
      ring
  rw [vco_call] at h
  split_ifs at h with hrange
  · split at h
    · rename_i lastv hlast
      simp only [Option.some.injEq, Prod.mk.injEq] at h
      obtain ⟨h1, h2⟩ := h
      refine ⟨?_, h2.symm, hrec⟩
      rw [← h1, List.getLastD_eq_getLast?, hlast]
      rfl
    · exact absurd h (by simp)

/-- Witness for the amended claim C1 at a concrete oscillator call. -/
theorem vco_phase_argument_amended_wit :
    (VCOState.mk 1 0 1).phase
      = (vco_arg id (fun l _ => l) 1 2 2 ⟨1, 0, 5⟩ [0] 0).getLastD 0 :=
  (vco_phase_argument_amended id (fun l _ => l) 1 2 2 id ⟨1, 0, 5⟩ [0] 0
    ⟨1, 0, 1⟩ [1] vco_call_eval_one).1

/-- Claim C10: the audio produced by an oscillator call depends only on
the modulation signal, the explicit phase argument and the
configuration fields, not on the stored phase state: two instances with
identical `midi_f0` and `mod_depth` but arbitrary stored phases return
identical output for identical call arguments. -/
theorem vco_output_noninterference (mhz : ℚ → ℚ)
    (resampleF : List ℚ → ℕ → List ℚ) (piQ CR SR : ℚ) (cosf : ℚ → ℚ)
    (st1 st2 : VCOState) (modSig : List ℚ) (phase : ℚ)
    (hmf : st1.midi_f0 = st2.midi_f0) (hmd : st1.mod_depth = st2.mod_depth) :
    (vco_call mhz resampleF piQ CR SR cosf st1 modSig phase).map Prod.snd
      = (vco_call mhz resampleF piQ CR SR cosf st2 modSig phase).map
        Prod.snd := by
  obtain ⟨m1, d1, p1⟩ := st1
  obtain ⟨m2, d2, p2⟩ := st2
  have hm : m1 = m2 := hmf
  have hd : d1 = d2 := hmd
  subst hm
  subst hd
  rfl

/-- Witness for claim C10 at two concrete instances differing only in
their stored phase. -/
theorem vco_output_noninterference_wit :
    (vco_call id (fun l _ => l) 1 2 2 id ⟨5, 6, 7⟩ [0] 0).map Prod.snd
      = (vco_call id (fun l _ => l) 1 2 2 id ⟨5, 6, 8⟩ [0] 0).map Prod.snd :=
  vco_output_noninterference id (fun l _ => l) 1 2 2 id ⟨5, 6, 7⟩ ⟨5, 6, 8⟩
    [0] 0 rfl rfl
